import Mathlib

/-
  Verification development for the resilient acquisition and multi-source
  identification pipeline implemented in `miner_app.py` and `apm.py`.

  The Python code is shallowly embedded: network calls, recognition services
  and the filesystem are abstracted as oracles (functions supplied as
  arguments), while all control flow, ordering, filtering and string
  processing is translated directly from the source.  Exceptions raised by
  effectful steps are modelled with `Except String`; a caught exception is an
  `Except.error` value consumed inside the embedded function, exactly where
  the corresponding `try/except` sits in the source.
-/

set_option maxHeartbeats 1000000

/-! ## Acquisition chain (CoreMiner.download_with_fallback, miner_app.py 204-251)

A download attempt is identified by the provider it contacts: the TikWM
platform relay, the Cobalt universal relay, or the native yt-dlp extractor
run under one of three client-identity strategies.  The outcome of each
attempt is supplied by an oracle `g : Attempt → Option String` returning the
downloaded filename on success and `none` on failure (the source logs and
continues on failure; no attempt is retried). -/

/-- The three client-identity strategies of `CoreMiner.get_ydl_opts`. -/
inductive Strategy
  | A
  | B
  | C
  deriving DecidableEq

/-- One acquisition attempt of the chain. -/
inductive Attempt
  | tikwm
  | cobalt
  | native (s : Strategy)
  deriving DecidableEq

/-- The UI mode selector values `["Automático", "Nativo", "API Web"]`. -/
inductive Mode
  | automatico
  | nativo
  | apiWeb
  deriving DecidableEq

/-- Embeds `CoreMiner._try_web_apis` (miner_app.py 241-251): for a TikTok URL
try TikWM first and return on success, then try Cobalt; for other URLs only
Cobalt is tried.  The second component is the list of attempts made. -/
def tryWebApis (isTiktok : Bool) (g : Attempt → Option String) :
    Option String × List Attempt :=
  if isTiktok then
    match g Attempt.tikwm with
    | some r => (some r, [Attempt.tikwm])
    | none =>
      match g Attempt.cobalt with
      | some r => (some r, [Attempt.tikwm, Attempt.cobalt])
      | none => (none, [Attempt.tikwm, Attempt.cobalt])
  else
    match g Attempt.cobalt with
    | some r => (some r, [Attempt.cobalt])
    | none => (none, [Attempt.cobalt])

/-- The strategy order of the native tier, `strategies = ['B', 'A', 'C']`
(miner_app.py 219). -/
def nativeStrategies : List Strategy := [Strategy.B, Strategy.A, Strategy.C]

/-- Embeds the native-tier loop of `download_with_fallback` (miner_app.py
220-231): iterate the strategies in order, return on the first success. -/
def tryStrategies (g : Attempt → Option String) :
    List Strategy → Option String × List Attempt
  | [] => (none, [])
  | s :: rest =>
    match g (Attempt.native s) with
    | some r => (some r, [Attempt.native s])
    | none =>
      let p := tryStrategies g rest
      (p.1, Attempt.native s :: p.2)

/-- Embeds `CoreMiner.download_with_fallback` (miner_app.py 204-239).
`isTiktok` is `"tiktok" in url.lower()`.  Stage 1 runs the web APIs for
TikTok URLs when the mode is Automático or API Web; stage 2 runs the native
strategies when the mode is Automático or Nativo; stage 3 runs the web APIs
for non-TikTok URLs when the mode is Automático or API Web.  The first
success is returned; the trace of attempts made is the second component. -/
def download_with_fallback (isTiktok : Bool) (m : Mode)
    (g : Attempt → Option String) : Option String × List Attempt :=
  let p1 := if isTiktok ∧ m ≠ Mode.nativo then tryWebApis isTiktok g else (none, [])
  match p1.1 with
  | some r => (some r, p1.2)
  | none =>
    let p2 := if m ≠ Mode.apiWeb then tryStrategies g nativeStrategies else (none, [])
    match p2.1 with
    | some r => (some r, p1.2 ++ p2.2)
    | none =>
      let p3 := if (¬ isTiktok) ∧ m ≠ Mode.nativo then tryWebApis isTiktok g else (none, [])
      (p3.1, p1.2 ++ p2.2 ++ p3.2)

/-- The attempt order of `_try_web_apis` for a given URL kind. -/
def webOrder (isTiktok : Bool) : List Attempt :=
  if isTiktok then [Attempt.tikwm, Attempt.cobalt] else [Attempt.cobalt]

/-- The complete per-URL attempt order realized by `download_with_fallback`. -/
def attemptOrder (isTiktok : Bool) (m : Mode) : List Attempt :=
  (if isTiktok ∧ m ≠ Mode.nativo then webOrder isTiktok else []) ++
    (if m ≠ Mode.apiWeb then nativeStrategies.map Attempt.native else []) ++
      (if (¬ isTiktok) ∧ m ≠ Mode.nativo then webOrder isTiktok else [])

/-- Reference first-success iteration over a list of attempts: try each in
order, stop at the first success. -/
def runChain {α β : Type} (g : α → Option β) : List α → Option β × List α
  | [] => (none, [])
  | a :: rest =>
    match g a with
    | some r => (some r, [a])
    | none =>
      let p := runChain g rest
      (p.1, a :: p.2)

lemma runChain_none_trace {α β : Type} (g : α → Option β) :
    ∀ o : List α, (runChain g o).1 = none → (runChain g o).2 = o := by
  intro o
  induction o with
  | nil => intro _; rfl
  | cons a rest ih =>
    intro h
    cases hga : g a with
    | some r => simp [runChain, hga] at h
    | none =>
      simp only [runChain, hga] at h ⊢
      rw [ih h]

lemma runChain_append_some {α β : Type} (g : α → Option β) (o1 o2 : List α)
    (r : β) (h : (runChain g o1).1 = some r) :
    runChain g (o1 ++ o2) = (some r, (runChain g o1).2) := by
  induction o1 with
  | nil => simp [runChain] at h
  | cons a rest ih =>
    rw [List.cons_append]
    cases hga : g a with
    | some s =>
      have hs : s = r := by simpa [runChain, hga] using h
      subst hs
      simp [runChain, hga]
    | none =>
      have h1 : (runChain g rest).1 = some r := by simpa [runChain, hga] using h
      simp only [runChain, hga, List.append_eq]
      rw [ih h1]

lemma runChain_append_none {α β : Type} (g : α → Option β) (o1 o2 : List α)
    (h : (runChain g o1).1 = none) :
    runChain g (o1 ++ o2) = ((runChain g o2).1, o1 ++ (runChain g o2).2) := by
  induction o1 with
  | nil => simp [runChain]
  | cons a rest ih =>
    rw [List.cons_append]
    cases hga : g a with
    | some s => simp [runChain, hga] at h
    | none =>
      have h1 : (runChain g rest).1 = none := by simpa [runChain, hga] using h
      simp only [runChain, hga, List.append_eq, List.cons_append]
      rw [ih h1]

lemma runChain_trace_is_initial {α β : Type} (g : α → Option β) :
    ∀ o : List α, ∃ rest, o = (runChain g o).2 ++ rest := by
  intro o
  induction o with
  | nil => exact ⟨[], rfl⟩
  | cons a rest ih =>
    cases hga : g a with
    | some r => exact ⟨rest, by simp [runChain, hga]⟩
    | none =>
      obtain ⟨tail, htail⟩ := ih
      exact ⟨tail, by simp only [runChain, hga, List.cons_append]; rw [← htail]⟩

lemma runChain_dropLast_fail {α β : Type} (g : α → Option β) :
    ∀ o : List α, ∀ a ∈ (runChain g o).2.dropLast, g a = none := by
  intro o
  induction o with
  | nil => intro a ha; simp [runChain] at ha
  | cons x rest ih =>
    intro a ha
    cases hgx : g x with
    | some r => simp [runChain, hgx] at ha
    | none =>
      simp only [runChain, hgx] at ha
      cases htr : (runChain g rest).2 with
      | nil => rw [htr] at ha; simp at ha
      | cons b t =>
        rw [htr] at ha
        rw [List.dropLast_cons₂] at ha
        rcases List.mem_cons.mp ha with h | h
        · exact h ▸ hgx
        · exact ih a (htr ▸ h)

lemma runChain_some_last {α β : Type} (g : α → Option β) :
    ∀ o : List α, ∀ r : β, (runChain g o).1 = some r →
      ∃ a, (runChain g o).2.getLast? = some a ∧ g a = some r := by
  intro o
  induction o with
  | nil => intro r h; simp [runChain] at h
  | cons x rest ih =>
    intro r h
    cases hgx : g x with
    | some s =>
      have hs : s = r := by simpa [runChain, hgx] using h
      subst hs
      exact ⟨x, by simp [runChain, hgx], hgx⟩
    | none =>
      simp only [runChain, hgx] at h
      obtain ⟨a, ha1, ha2⟩ := ih r h
      refine ⟨a, ?_, ha2⟩
      cases htr : (runChain g rest).2 with
      | nil => rw [htr] at ha1; simp at ha1
      | cons b t =>
        rw [htr] at ha1
        simp only [runChain, hgx, htr]
        rw [List.getLast?_cons_cons]
        exact ha1

lemma runChain_all_fail {α β : Type} (g : α → Option β) :
    ∀ o : List α, (runChain g o).1 = none → ∀ a ∈ o, g a = none := by
  intro o
  induction o with
  | nil => intro _ a ha; simp at ha
  | cons x rest ih =>
    intro h a ha
    cases hgx : g x with
    | some r => simp [runChain, hgx] at h
    | none =>
      simp only [runChain, hgx] at h
      rcases List.mem_cons.mp ha with h1 | h1
      · exact h1 ▸ hgx
      · exact ih h a h1

lemma tryStrategies_eq_runChain (g : Attempt → Option String) :
    ∀ ss : List Strategy,
      tryStrategies g ss = runChain g (ss.map Attempt.native) := by
  intro ss
  induction ss with
  | nil => rfl
  | cons s rest ih =>
    cases hgs : g (Attempt.native s) with
    | some r => simp [tryStrategies, runChain, hgs]
    | none => simp [tryStrategies, runChain, hgs, ih]

lemma tryWebApis_eq_runChain (isTiktok : Bool) (g : Attempt → Option String) :
    tryWebApis isTiktok g = runChain g (webOrder isTiktok) := by
  cases isTiktok with
  | false =>
    cases hc : g Attempt.cobalt <;> simp [tryWebApis, webOrder, runChain, hc]
  | true =>
    cases ht : g Attempt.tikwm with
    | some r => simp [tryWebApis, webOrder, runChain, ht]
    | none =>
      cases hc : g Attempt.cobalt <;>
        simp [tryWebApis, webOrder, runChain, ht, hc]

lemma download_eq_runChain (isTiktok : Bool) (m : Mode)
    (g : Attempt → Option String) :
    download_with_fallback isTiktok m g = runChain g (attemptOrder isTiktok m) := by
  have hweb := tryWebApis_eq_runChain isTiktok g
  have hnat := tryStrategies_eq_runChain g nativeStrategies
  cases isTiktok with
  | false =>
    cases m with
    | automatico =>
      simp only [download_with_fallback, attemptOrder, hweb, hnat]
      simp
      cases h2 : (runChain g (nativeStrategies.map Attempt.native)).1 with
      | some r => rw [runChain_append_some g _ _ r h2]
      | none => rw [runChain_append_none g _ _ h2, runChain_none_trace g _ h2]
    | nativo =>
      simp only [download_with_fallback, attemptOrder, hweb, hnat]
      simp
      cases h2 : (runChain g (nativeStrategies.map Attempt.native)).1 with
      | some r =>
        show ((some r : Option String),
          (runChain g (nativeStrategies.map Attempt.native)).2) = _
        rw [← h2]
      | none =>
        show ((none : Option String),
          (runChain g (nativeStrategies.map Attempt.native)).2) = _
        rw [← h2]
    | apiWeb =>
      simp only [download_with_fallback, attemptOrder, hweb, hnat]
      simp
  | true =>
    cases m with
    | automatico =>
      simp only [download_with_fallback, attemptOrder, hweb, hnat]
      simp
      cases h1 : (runChain g (webOrder true)).1 with
      | some r => rw [runChain_append_some g _ _ r h1]
      | none =>
        rw [runChain_append_none g _ _ h1, runChain_none_trace g _ h1]
        simp only [h1]
        cases h2 : (runChain g (nativeStrategies.map Attempt.native)).1 with
        | some r => simp [h2]
        | none => simp [h2]
    | nativo =>
      simp only [download_with_fallback, attemptOrder, hweb, hnat]
      simp
      cases h2 : (runChain g (nativeStrategies.map Attempt.native)).1 with
      | some r =>
        show ((some r : Option String),
          (runChain g (nativeStrategies.map Attempt.native)).2) = _
        rw [← h2]
      | none =>
        show ((none : Option String),
          (runChain g (nativeStrategies.map Attempt.native)).2) = _
        rw [← h2]
    | apiWeb =>
      simp only [download_with_fallback, attemptOrder, hweb, hnat]
      simp
      cases h1 : (runChain g (webOrder true)).1 with
      | some r =>
        show ((some r : Option String), (runChain g (webOrder true)).2) = _
        rw [← h1]
      | none =>
        show ((none : Option String), (runChain g (webOrder true)).2) = _
        rw [← h1]

/-! ## Client-identity strategies (CoreMiner.get_ydl_opts, miner_app.py 153-202) -/

/-- Embedded shape of the yt-dlp option dictionary built by
`CoreMiner.get_ydl_opts`; only the fields the specification speaks about are
modelled (format selection and the per-strategy identity fields). -/
structure YdlOpts where
  outtmpl : String
  format : String
  mergeOutputFormat : Option String
  postprocessMp3Quality : Option String
  userAgent : Option String
  tiktokAndroidArgs : Bool
  sleepInterval : Option Nat
  deriving DecidableEq

/-- The desktop Chrome user agent set by strategy A (miner_app.py 180). -/
def desktopChromeUA : String :=
  "Mozilla/5.0 (Windows NT 10.0; Win64; x64) AppleWebKit/537.36 (KHTML, like Gecko) Chrome/91.0.4472.124 Safari/537.36"

/-- The Android mobile user agent set by strategy B (miner_app.py 188). -/
def androidMobileUA : String :=
  "Mozilla/5.0 (Linux; Android 10; K) AppleWebKit/537.36 (KHTML, like Gecko) Chrome/93.0.4577.82 Mobile Safari/537.36"

/-- The rotation pool `uas` of strategy C (miner_app.py 193-197). -/
def rotationUAs : List String :=
  ["Mozilla/5.0 (Macintosh; Intel Mac OS X 10_15_7) AppleWebKit/605.1.15 (KHTML, like Gecko) Version/14.0.3 Safari/605.1.15",
   "Mozilla/5.0 (Windows NT 10.0; Win64; x64; rv:89.0) Gecko/20100101 Firefox/89.0",
   "Mozilla/5.0 (iPad; CPU OS 14_0 like Mac OS X) AppleWebKit/605.1.15 (KHTML, like Gecko) Version/14.0 Mobile/15E148 Safari/604.1"]

/-- Embeds `CoreMiner.get_ydl_opts`.  Strategy A sets the standard desktop
browser user agent; strategy B sets the Android mobile user agent and the
TikTok android extractor arguments; strategy C picks a random user agent
from the rotation pool (the `random.choice` draw is modelled by the index
`rng % 3`) and sets `sleep_interval = 2`. -/
def get_ydl_opts (outputDir : String) (strategy : Strategy) (isVideo : Bool)
    (rng : Nat) : YdlOpts :=
  ⟨outputDir ++ "/%(title)s.%(ext)s",
   (if isVideo then "bestvideo[height<=1080]+bestaudio/best[height<=1080]"
    else "bestaudio/best"),
   (if isVideo then some "mp4" else none),
   (if isVideo then none else some "320"),
   (match strategy with
    | Strategy.A => some desktopChromeUA
    | Strategy.B => some androidMobileUA
    | Strategy.C => rotationUAs.get? (rng % 3)),
   (match strategy with
    | Strategy.B => true
    | _ => false),
   (match strategy with
    | Strategy.C => some 2
    | _ => none)⟩

/-- C1 counterexample: for a non-TikTok URL in the default Automático mode
the chain attempts the native strategies before the universal relay
(Cobalt), and the platform relay (TikWM) is never attempted at all, yet the
chain reports a total failure — contradicting the claimed fixed tier order
platform relay, universal relay, native extractor for every input URL. -/
theorem chain_order_counterexample :
    (download_with_fallback false Mode.automatico (fun _ => none)).1 = none ∧
    (download_with_fallback false Mode.automatico (fun _ => none)).2 =
      [Attempt.native Strategy.B, Attempt.native Strategy.A,
        Attempt.native Strategy.C, Attempt.cobalt] ∧
    Attempt.tikwm ∉ (download_with_fallback false Mode.automatico (fun _ => none)).2 ∧
    (download_with_fallback false Mode.automatico (fun _ => none)).2.head? ≠
      some Attempt.cobalt ∧
    (download_with_fallback false Mode.automatico (fun _ => none)).2.head? ≠
      some Attempt.tikwm := by
  decide

/-- C1 (amended): `download_with_fallback` is the first-success iteration of
its attempts in the fixed per-URL order `attemptOrder`: for TikTok URLs in
Automático mode that order is TikWM, Cobalt, then the native strategies;
for non-TikTok URLs the platform tier is skipped and Cobalt comes after the
native tier.  The trace of attempts is an initial segment of that order,
every attempt before the last one failed (so no later tier is attempted
after a success), and a total failure is reported only when every attempt
in the order has been made and failed. -/
theorem chain_first_success_order (isTiktok : Bool) (m : Mode)
    (g : Attempt → Option String) :
    download_with_fallback isTiktok m g = runChain g (attemptOrder isTiktok m) ∧
    (∃ rest, attemptOrder isTiktok m = (download_with_fallback isTiktok m g).2 ++ rest) ∧
    (∀ a ∈ (download_with_fallback isTiktok m g).2.dropLast, g a = none) ∧
    (∀ r, (download_with_fallback isTiktok m g).1 = some r →
      ∃ a, (download_with_fallback isTiktok m g).2.getLast? = some a ∧ g a = some r) ∧
    ((download_with_fallback isTiktok m g).1 = none →
      (download_with_fallback isTiktok m g).2 = attemptOrder isTiktok m ∧
        ∀ a ∈ attemptOrder isTiktok m, g a = none) := by
  have he := download_eq_runChain isTiktok m g
  refine ⟨he, ?_, ?_, ?_, ?_⟩
  · rw [he]
    exact runChain_trace_is_initial g _
  · rw [he]
    exact runChain_dropLast_fail g _
  · rw [he]
    exact runChain_some_last g _
  · rw [he]
    intro h
    exact ⟨runChain_none_trace g _ h, runChain_all_fail g _ h⟩

/-- Stub oracle on which only the platform relay (tier 1) succeeds. -/
def tier1SuccessStub : Attempt → Option String :=
  fun a => if a = Attempt.tikwm then some "clip.mp4" else none

/-- Witness for `chain_first_success_order`: on a TikTok URL whose TikWM
attempt succeeds, the trace is exactly `[tikwm]` — in particular tier 2
(Cobalt) is never attempted — and the returned result is the successful
last attempt. -/
theorem chain_first_success_order_witness :
    (download_with_fallback true Mode.automatico tier1SuccessStub).2 = [Attempt.tikwm] ∧
    (∃ a, (download_with_fallback true Mode.automatico tier1SuccessStub).2.getLast? = some a ∧
      tier1SuccessStub a = some "clip.mp4") :=
  ⟨by decide,
    (chain_first_success_order true Mode.automatico tier1SuccessStub).2.2.2.1
      "clip.mp4" (by decide)⟩

/-- C4 counterexample: the native tier iterates `['B', 'A', 'C']`, so the
first strategy attempted is B — the mobile-app (Android) client emulation —
not the standard browser identity (strategy A), contradicting the claimed
order standard browser first, then mobile-app client. -/
theorem native_order_counterexample :
    (tryStrategies (fun _ => none) nativeStrategies).2 =
      [Attempt.native Strategy.B, Attempt.native Strategy.A,
        Attempt.native Strategy.C] ∧
    (tryStrategies (fun _ => none) nativeStrategies).2.head? =
      some (Attempt.native Strategy.B) ∧
    (get_ydl_opts "out" Strategy.B false 0).userAgent = some androidMobileUA ∧
    (get_ydl_opts "out" Strategy.B false 0).tiktokAndroidArgs = true ∧
    (get_ydl_opts "out" Strategy.A false 0).userAgent = some desktopChromeUA ∧
    androidMobileUA ≠ desktopChromeUA := by
  decide

/-- C4 (amended): within the native tier the strategies are attempted in the
order B (mobile-app Android client emulation), then A (standard desktop
browser identity), then C (randomized identity with an inter-request delay)
last; the tier stops at the first success. -/
theorem native_strategy_order (g : Attempt → Option String) (d : String)
    (v : Bool) (r : Nat) :
    nativeStrategies = [Strategy.B, Strategy.A, Strategy.C] ∧
    tryStrategies g nativeStrategies =
      runChain g [Attempt.native Strategy.B, Attempt.native Strategy.A,
        Attempt.native Strategy.C] ∧
    (get_ydl_opts d Strategy.B v r).userAgent = some androidMobileUA ∧
    (get_ydl_opts d Strategy.B v r).tiktokAndroidArgs = true ∧
    (get_ydl_opts d Strategy.A v r).userAgent = some desktopChromeUA ∧
    (get_ydl_opts d Strategy.A v r).sleepInterval = none ∧
    (get_ydl_opts d Strategy.B v r).sleepInterval = none ∧
    (get_ydl_opts d Strategy.C v r).sleepInterval = some 2 ∧
    (∃ ua ∈ rotationUAs, (get_ydl_opts d Strategy.C v r).userAgent = some ua) := by
  refine ⟨rfl, tryStrategies_eq_runChain g nativeStrategies,
    rfl, rfl, rfl, rfl, rfl, rfl, ?_⟩
  have h3 : r % 3 < 3 := Nat.mod_lt _ (by omega)
  cases hua : rotationUAs.get? (r % 3) with
  | none =>
    have hlen := List.get?_eq_none.mp hua
    simp [rotationUAs] at hlen
    omega
  | some ua =>
    refine ⟨ua, List.get?_mem hua, ?_⟩
    simp only [get_ydl_opts]
    exact hua

/-! ## Filename sanitisation

`sanitize_filename` appears three times with identical behaviour:
apm.py 30-37, `CoreMiner.sanitize_filename` (miner_app.py 148-151) and
`ExternalMiners._sanitize` (miner_app.py 133-134): remove the characters
matched by the regex class and `strip()` the result. -/

/-- The characters removed by the sanitisation regex class. -/
def illegalFilenameChars : List Char :=
  ['<', '>', ':', '"', '/', '\\', '|', '?', '*']

/-- Python `str.strip()`: drop whitespace from both ends. -/
def pyStrip (l : List Char) : List Char :=
  ((l.dropWhile Char.isWhitespace).reverse.dropWhile Char.isWhitespace).reverse

/-- Embeds `sanitize_filename`: remove the illegal filename characters and
strip surrounding whitespace. -/
def sanitize_filename (s : String) : String :=
  (pyStrip (s.data.filter (fun c => decide (c ∉ illegalFilenameChars)))).asString

/-! ## Providers never raise

`ExternalMiners.download_tikwm` (miner_app.py 58-98),
`ExternalMiners.download_cobalt` (miner_app.py 100-131) and
`CoreMiner._run_ytdlp` (miner_app.py 253-281).  Each provider body is
embedded as an `Except String` computation over an oracle world describing
the outcomes of its effectful steps (HTTP calls, JSON decoding, media
fetches, file writes); `Except.error` models a raised exception.  The
provider itself is the body wrapped in the `try/except Exception` of the
source, which maps every raised error to the failure value `None`. -/

lemma except_bind_ok {ε α β : Type} (a : α) (f : α → Except ε β) :
    (Except.ok a : Except ε α) >>= f = f a := rfl

lemma except_bind_error {ε α β : Type} (e : ε) (f : α → Except ε β) :
    (Except.error e : Except ε α) >>= f = Except.error e := rfl

/-- The fields of the TikWM JSON response read by `download_tikwm`
(`code`, `data.title`, `data.images`, `data.music`, `data.play`). -/
structure TikwmData where
  code : Option Int
  title : Option String
  images : List String
  music : Option String
  play : Option String

/-- Oracle world for one `download_tikwm` call: the POST-and-decode step and
the media GET/write steps, each of which may raise. -/
structure TikwmWorld where
  postJson : Except String TikwmData
  musicGet : Except String Nat
  musicWrite : Except String Unit
  playGet : Except String Nat
  playWrite : Except String Unit

/-- Embeds the body of `download_tikwm` (the code inside its `try`):
decode the response; on `code == 0` build the sanitised title (defaulting
to `tiktok_<time>`); a slideshow with a music URL downloads the mp3 on
HTTP 200; a slideshow without one returns `None`; otherwise the `play`
video URL is downloaded as mp4 on HTTP 200; every other path falls through
to `None`. -/
def tikwmBody (outputDir : String) (now : Nat) (w : TikwmWorld) :
    Except String (Option String) := do
  let data ← w.postJson
  if data.code = some 0 then
    let st := sanitize_filename (data.title.getD ("tiktok_" ++ toString now))
    let slideshow ← (
      if data.images ≠ [] then
        match data.music with
        | some _ => do
          let status ← w.musicGet
          if status = 200 then do
            w.musicWrite
            pure (some (some (outputDir ++ "/" ++ st ++ ".mp3")))
          else
            pure (none : Option (Option String))
        | none => pure (some (none : Option String))
      else
        pure (none : Option (Option String)))
    match slideshow with
    | some res => pure res
    | none =>
      match data.play with
      | some _ => do
        let status ← w.playGet
        if status = 200 then do
          w.playWrite
          pure (some (outputDir ++ "/" ++ st ++ ".mp4"))
        else
          pure none
      | none => pure none
  else
    pure none

/-- Embeds `download_tikwm`: the body under `try/except Exception`, which
logs and returns `None` on any raised error. -/
def download_tikwm (outputDir : String) (now : Nat) (w : TikwmWorld) :
    Option String :=
  match tikwmBody outputDir now w with
  | Except.ok res => res
  | Except.error _ => none

/-- Oracle world for one `download_cobalt` call: `postJson` is the decoded
presence of the `url` field, `fileGet` returns the download status and
whether the Content-Type names audio. -/
structure CobaltWorld where
  postJson : Except String (Option String)
  fileGet : Except String (Nat × Bool)
  fileWrite : Except String Unit

/-- Embeds the body of `download_cobalt` (the code inside its `try`). -/
def cobaltBody (outputDir : String) (now : Nat) (w : CobaltWorld) :
    Except String (Option String) := do
  let urlField ← w.postJson
  match urlField with
  | some _ => do
    let resp ← w.fileGet
    if resp.1 = 200 then do
      w.fileWrite
      let ext := if resp.2 then "mp3" else "mp4"
      pure (some (outputDir ++ "/download_" ++ toString now ++ "." ++ ext))
    else
      pure none
  | none => pure none

/-- Embeds `download_cobalt`: the body under `try/except Exception`. -/
def download_cobalt (outputDir : String) (now : Nat) (w : CobaltWorld) :
    Option String :=
  match cobaltBody outputDir now w with
  | Except.ok res => res
  | Except.error _ => none

/-- The stem of `os.path.splitext`: everything before the last dot, or the
whole string when it contains no dot. -/
def splitextBase (s : String) : String :=
  if ('.') ∈ s.data then
    (((s.data.reverse.dropWhile (fun c => c ≠ '.')).drop 1).reverse).asString
  else s

/-- Oracle world for one `_run_ytdlp` call.  `extractInfo` models
`ydl.extract_info` (an error is a raised exception, the Bool is the
truthiness of the returned info); `prepareFilename` models
`ydl.prepare_filename`; the Bools model the `os.path.exists` checks. -/
structure YtdlpWorld where
  extractInfo : Except String Bool
  prepareFilename : Except String String
  mp3Exists : Bool
  fileExists : String → Bool

/-- Embeds the body of `_run_ytdlp` under its outer `try`: the inner
`try/except` around `extract_info` turns any raised error into `None`
(returned as a value); then the prepared filename is adjusted to the
`.mp3` conversion result when audio extraction was requested, and returned
only if it exists on disk. -/
def runYtdlpBody (mergeOutput : Bool) (w : YtdlpWorld) :
    Except String (Option String) := do
  let infoOk :=
    match w.extractInfo with
    | Except.ok b => b
    | Except.error _ => false
  if infoOk then do
    let filename ← w.prepareFilename
    let base := splitextBase filename
    let finalName :=
      if (¬ mergeOutput) ∧ w.mp3Exists then base ++ ".mp3" else filename
    if w.fileExists finalName then pure (some finalName) else pure none
  else
    pure none

/-- Embeds `_run_ytdlp`: the body under the outer `try/except Exception`. -/
def run_ytdlp (mergeOutput : Bool) (w : YtdlpWorld) : Option String :=
  match runYtdlpBody mergeOutput w with
  | Except.ok res => res
  | Except.error _ => none

/-- C5 (confirmed): for every oracle world, every provider call returns a
value to its caller: an error raised anywhere in the body — at the initial
HTTP/JSON step or at a deep media-fetch or filename step — is captured by
the provider-level `try/except` and surfaces as the failure value `none`,
and a body that completes yields its result unchanged, so the chain can
proceed to the next provider. -/
theorem providers_never_raise :
    (∀ d n (w : TikwmWorld) e, tikwmBody d n w = Except.error e →
      download_tikwm d n w = none) ∧
    (∀ d n (w : TikwmWorld) res, tikwmBody d n w = Except.ok res →
      download_tikwm d n w = res) ∧
    (∀ d n (w : TikwmWorld) e, w.postJson = Except.error e →
      download_tikwm d n w = none) ∧
    (∀ d n (w : TikwmWorld) e data mu, w.postJson = Except.ok data →
      data.code = some 0 → data.images ≠ [] → data.music = some mu →
      w.musicGet = Except.error e → download_tikwm d n w = none) ∧
    (∀ d n (w : CobaltWorld) e, cobaltBody d n w = Except.error e →
      download_cobalt d n w = none) ∧
    (∀ d n (w : CobaltWorld) res, cobaltBody d n w = Except.ok res →
      download_cobalt d n w = res) ∧
    (∀ d n (w : CobaltWorld) e u, w.postJson = Except.ok (some u) →
      w.fileGet = Except.error e → download_cobalt d n w = none) ∧
    (∀ m (w : YtdlpWorld) e, w.extractInfo = Except.error e →
      run_ytdlp m w = none) ∧
    (∀ m (w : YtdlpWorld) e, w.extractInfo = Except.ok true →
      w.prepareFilename = Except.error e → run_ytdlp m w = none) := by
  refine ⟨?_, ?_, ?_, ?_, ?_, ?_, ?_, ?_, ?_⟩
  · intro d n w e h
    simp [download_tikwm, h]
  · intro d n w res h
    simp [download_tikwm, h]
  · intro d n w e h
    simp [download_tikwm, tikwmBody, h, except_bind_error]
  · intro d n w e data mu hpost hcode himg hmusic hget
    simp [download_tikwm, tikwmBody, hpost, hcode, himg, hmusic, hget,
      except_bind_ok, except_bind_error]
  · intro d n w e h
    simp [download_cobalt, h]
  · intro d n w res h
    simp [download_cobalt, h]
  · intro d n w e u hpost hget
    simp [download_cobalt, cobaltBody, hpost, hget,
      except_bind_ok, except_bind_error]
  · intro m w e h
    simp [run_ytdlp, runYtdlpBody, h, pure, Except.pure]
  · intro m w e hinfo hprep
    simp [run_ytdlp, runYtdlpBody, hinfo, hprep,
      except_bind_ok, except_bind_error]

/-- A world whose initial POST raises; used to witness
`providers_never_raise`. -/
def tikwmTimeoutWorld : TikwmWorld :=
  ⟨Except.error "timeout", Except.ok 200, Except.ok (), Except.ok 200,
    Except.ok ()⟩

/-- A world whose `extract_info` raises; used to witness
`providers_never_raise`. -/
def ytdlpRaiseWorld : YtdlpWorld :=
  ⟨Except.error "boom", Except.ok "f.webm", false, fun _ => true⟩

/-- Witness for `providers_never_raise` at concrete raising worlds. -/
theorem providers_never_raise_witness :
    download_tikwm "staging" 0 tikwmTimeoutWorld = none ∧
    run_ytdlp false ytdlpRaiseWorld = none :=
  ⟨providers_never_raise.2.2.1 "staging" 0 tikwmTimeoutWorld "timeout" rfl,
    providers_never_raise.2.2.2.2.2.2.2.1 false ytdlpRaiseWorld "boom" rfl⟩

/-! ## Master-track selection

`search_and_download_master` (apm.py 119-168) and `CoreMiner.search_master`
(miner_app.py 341-365) share the same candidate loop over the `ytsearch5`
results: take the first entry whose `entry.get('duration', 0)` lies
strictly between 110 and 600. -/

/-- One entry of the search result list; `duration` is `none` when the
entry has no `duration` key, in which case `entry.get('duration', 0)`
yields 0. -/
structure MasterEntry where
  duration : Option Nat
  title : String
  deriving DecidableEq

/-- The value of `entry.get('duration', 0)`. -/
def entryDuration (e : MasterEntry) : Nat := e.duration.getD 0

/-- The acceptance test `110 < duration < 600` (apm.py 143,
miner_app.py 361). -/
def inDurationWindow (e : MasterEntry) : Bool :=
  decide (110 < entryDuration e) && decide (entryDuration e < 600)

/-- Embeds the shared candidate loop: iterate the entries in returned order
and return the first one inside the duration window. -/
def search_master (entries : List MasterEntry) : Option MasterEntry :=
  match entries with
  | [] => none
  | e :: rest => if inDurationWindow e then some e else search_master rest

/-- The five-candidate scenario of the specification, durations
[45, 620, 300, 90, 150]. -/
def demoEntries : List MasterEntry :=
  [⟨some 45, "c1"⟩, ⟨some 620, "c2"⟩, ⟨some 300, "c3"⟩,
   ⟨some 90, "c4"⟩, ⟨some 150, "c5"⟩]

/-- C2 (confirmed): master selection returns the first entry in list order
whose duration is strictly greater than 110 s and strictly less than 600 s;
entries of exactly 110 s or exactly 600 s are excluded; and on the
durations [45, 620, 300, 90, 150] the 300-second candidate is selected,
not the shortest or longest in range. -/
theorem master_selects_first_in_window :
    (∀ entries : List MasterEntry,
      search_master entries = entries.find? inDurationWindow) ∧
    search_master demoEntries = some ⟨some 300, "c3"⟩ ∧
    search_master [⟨some 110, "low"⟩, ⟨some 600, "high"⟩] = none := by
  refine ⟨?_, by decide, by decide⟩
  intro entries
  induction entries with
  | nil => rfl
  | cons e rest ih =>
    cases he : inDurationWindow e with
    | true => simp [search_master, he, List.find?_cons]
    | false => simp [search_master, he, List.find?_cons, ih]

/-- C10 (confirmed): a selected master entry always carries a present
duration strictly inside the window; an entry whose duration field is
absent is treated as duration 0 by `entry.get('duration', 0)` and is
therefore never selected. -/
theorem absent_duration_never_selected (entries : List MasterEntry)
    (e : MasterEntry) (h : search_master entries = some e) :
    ∃ d, e.duration = some d ∧ 110 < d ∧ d < 600 := by
  induction entries with
  | nil => simp [search_master] at h
  | cons x rest ih =>
    cases hx : inDurationWindow x with
    | true =>
      have hxe : x = e := by
        have := h
        simp [search_master, hx] at this
        exact this
      subst hxe
      have hx2 : 110 < entryDuration x ∧ entryDuration x < 600 := by
        have := hx
        simp [inDurationWindow, Bool.and_eq_true, decide_eq_true_eq] at this
        exact this
      cases hd : x.duration with
      | none =>
        rw [entryDuration, hd] at hx2
        simp at hx2
      | some dd =>
        rw [entryDuration, hd] at hx2
        exact ⟨dd, rfl, hx2.1, hx2.2⟩
    | false =>
      have hrest : search_master rest = some e := by
        have := h
        simp [search_master, hx] at this
        exact this
      exact ih hrest

/-- Witness for `absent_duration_never_selected`: in a list whose first
entry has no duration field, the entry with duration 300 is selected and
has a present in-window duration. -/
theorem absent_duration_never_selected_witness :
    ∃ d, (MasterEntry.mk (some 300) "c3").duration = some d ∧
      110 < d ∧ d < 600 :=
  absent_duration_never_selected
    [⟨none, "nodur"⟩, ⟨some 300, "c3"⟩] ⟨some 300, "c3"⟩ (by decide)

/-! ## Temporary recognition artifacts

`CoreMiner.precision_recognition` (miner_app.py 283-339) exports one
`temp_seg_i.mp3` per analysis point, recognises it inside a `try/except`
whose `finally` removes the artifact, and wraps the whole loop in a
function-level `try/except`. -/

/-- Oracle world for one `precision_recognition` call: whether the audio
loads, and per segment the two phases of `segment.export` — pydub first
opens and creates the output file (`exportOpenOk`; a failed open raises
with nothing created), then runs the ffmpeg encode (`exportEncodeOk`; a
failed encode raises with `temp_seg_i.mp3` already on disk) — and the
recognition outcome (an error is a raised exception, caught per
segment). -/
structure RecogWorld where
  loadOk : Bool
  exportOpenOk : Nat → Bool
  exportEncodeOk : Nat → Bool
  recog : Nat → Except String (Option (String × String))

/-- The analysis points 10 s, 50 % and 75 % paired with their segment
index; a point at or past the end of the audio is skipped
(`if p >= duration_ms: continue`). -/
def precisionPoints (durationMs : Nat) : List (Nat × Nat) :=
  ([(0, 10000), (1, durationMs / 2), (2, durationMs * 3 / 4)]).filter
    (fun ip => decide (ip.2 < durationMs))

/-- Embeds the per-segment loop of `precision_recognition`: `files` is the
set of existing `temp_seg_i` artifacts, `cands` the collected recognition
candidates.  Per segment, `segment.export` sits outside the `try/finally`
(miner_app.py 309): a failed open raises before creating anything, a
failed encode raises with the artifact already created — both jump to the
function-level except (third component `true`) and skip the cleanup; only
when export completes does the recognition attempt run inside the
`try/except` whose `finally` removes the artifact whatever happened. -/
def segLoop (w : RecogWorld) :
    List (Nat × Nat) → List Nat → List (String × String) →
      List Nat × List (String × String) × Bool
  | [], files, cands => (files, cands, false)
  | ip :: rest, files, cands =>
    if w.exportOpenOk ip.1 then
      let files1 := ip.1 :: files
      if w.exportEncodeOk ip.1 then
        let cands1 :=
          match w.recog ip.1 with
          | Except.ok (some c) => cands ++ [c]
          | _ => cands
        segLoop w rest (files1.erase ip.1) cands1
      else
        (files1, cands, true)
    else
      (files, cands, true)

/-- Embeds `precision_recognition` up to the consensus step: load the audio
(`AudioSegment.from_file` may raise, caught by the function-level except),
then run the segment loop from an empty staging state. -/
def precision_recognition_run (durationMs : Nat) (w : RecogWorld) :
    List Nat × List (String × String) × Bool :=
  if w.loadOk then segLoop w (precisionPoints durationMs) [] []
  else ([], [], true)

lemma segLoop_files_empty_of_encode_ok (w : RecogWorld)
    (henc : ∀ i, w.exportEncodeOk i = true) :
    ∀ (l : List (Nat × Nat)) (cands : List (String × String)),
      (segLoop w l [] cands).1 = [] := by
  intro l
  induction l with
  | nil => intro cands; rfl
  | cons ip rest ih =>
    intro cands
    by_cases hopen : w.exportOpenOk ip.1
    · simp only [segLoop, hopen, henc ip.1, if_true, List.erase_cons_head]
      exact ih _
    · simp [segLoop, hopen]

/-- World of the failing input: the audio loads, every export opens its
artifact, but the encode step of segment 0 raises (for example
`CouldntEncodeError`, or ffmpeg missing from `PATH` under the `"ffmpeg"`
fallback of miner_app.py 29-33); later segments and recognition would
succeed. -/
def leakWorld : RecogWorld :=
  ⟨true, fun _ => true, fun i => decide (i ≠ 0),
    fun _ => Except.ok (some ("Song X", "Artist A"))⟩

/-- World in which every export completes but every recognition attempt
raises; the per-segment `finally` still cleans up. -/
def recogFailWorld : RecogWorld :=
  ⟨true, fun _ => true, fun _ => true, fun _ => Except.error "net down"⟩

/-- C9 (code bug): on a 60-second clip whose segment-0 export fails at the
encode step, the partially written `temp_seg_0.mp3` already exists when
the error raises; the raise jumps past the `finally` to the function-level
except, so the artifact survives the recognition pass — contradicting the
claimed (and clearly intended) cleanup.  By contrast, when no export
raises, the `finally` deletes every artifact even though every
recognition attempt fails. -/
theorem temp_artifact_leak_on_export_failure :
    (precision_recognition_run 60000 leakWorld).1 = [0] ∧
    (precision_recognition_run 60000 leakWorld).2.2 = true ∧
    (precision_recognition_run 60000 recogFailWorld).1 = [] ∧
    (precision_recognition_run 60000 recogFailWorld).2.2 = false := by
  decide

/-! ## Recognition consensus

`precision_recognition` fuses the per-segment candidates with
`Counter(candidates).most_common(1)[0][0]` (miner_app.py 326-335): an
exact-match majority vote whose ties keep the earliest-seen candidate. -/

/-- Key insertion of `collections.Counter`: a new key is appended, an
existing key keeps its position. -/
def insertKey {α : Type} [DecidableEq α] (ks : List α) (x : α) : List α :=
  if x ∈ ks then ks else ks ++ [x]

/-- The keys of `Counter(l)` in first-insertion order. -/
def counterKeys {α : Type} [DecidableEq α] (l : List α) : List α :=
  l.foldl insertKey []

/-- The scan performed by `most_common(1)`: keep the key with the strictly
larger count, earlier keys winning ties (`heapq.nlargest` is stable). -/
def pickMostCommon {α : Type} [DecidableEq α] (l ks : List α) : Option α :=
  ks.foldl
    (fun best k =>
      match best with
      | none => some k
      | some b => if l.count b < l.count k then some k else some b)
    none

/-- `Counter(l).most_common(1)[0][0]` as an optional value. -/
def counter_most_common {α : Type} [DecidableEq α] (l : List α) : Option α :=
  pickMostCommon l (counterKeys l)

/-- Embeds the consensus step of `precision_recognition`: `None` when no
candidates were collected, otherwise the most frequent candidate. -/
def precision_consensus (cands : List (String × String)) :
    Option (String × String) :=
  if cands.isEmpty then none else counter_most_common cands

lemma mem_insertKey {α : Type} [DecidableEq α] (ks : List α) (x y : α) :
    y ∈ insertKey ks x ↔ y ∈ ks ∨ y = x := by
  unfold insertKey
  by_cases h : x ∈ ks
  · simp only [h, if_true]
    constructor
    · exact Or.inl
    · rintro (hy | rfl)
      · exact hy
      · exact h
  · simp [h]

lemma mem_counterKeys_aux {α : Type} [DecidableEq α] (l : List α) :
    ∀ (ks : List α) (y : α), y ∈ l.foldl insertKey ks ↔ y ∈ ks ∨ y ∈ l := by
  induction l with
  | nil => intro ks y; simp
  | cons a l ih =>
    intro ks y
    rw [List.foldl_cons, ih, mem_insertKey]
    constructor
    · rintro ((hy | rfl) | hy)
      · exact Or.inl hy
      · exact Or.inr (List.mem_cons_self _ _)
      · exact Or.inr (List.mem_cons_of_mem _ hy)
    · rintro (hy | hy)
      · exact Or.inl (Or.inl hy)
      · rcases List.mem_cons.mp hy with rfl | hy
        · exact Or.inl (Or.inr rfl)
        · exact Or.inr hy

lemma mem_counterKeys {α : Type} [DecidableEq α] (l : List α) (y : α) :
    y ∈ counterKeys l ↔ y ∈ l := by
  rw [counterKeys, mem_counterKeys_aux]
  simp

lemma pickMostCommon_spec {α : Type} [DecidableEq α] (l : List α) :
    ∀ (ks : List α) (acc : Option α) (m : α),
      ks.foldl
        (fun best k =>
          match best with
          | none => some k
          | some b => if l.count b < l.count k then some k else some b)
        acc = some m →
      (m ∈ ks ∨ acc = some m) ∧
        (∀ k ∈ ks, l.count k ≤ l.count m) ∧
        (∀ b, acc = some b → l.count b ≤ l.count m) := by
  intro ks
  induction ks with
  | nil =>
    intro acc m h
    rw [List.foldl_nil] at h
    refine ⟨Or.inr h, by simp, ?_⟩
    intro b hb
    rw [hb] at h
    rw [Option.some_inj.mp h]
  | cons k ks ih =>
    intro acc m h
    rw [List.foldl_cons] at h
    cases acc with
    | none =>
      obtain ⟨h1, h2, h3⟩ := ih (some k) m h
      refine ⟨?_, ?_, ?_⟩
      · rcases h1 with hm | hm
        · exact Or.inl (List.mem_cons_of_mem _ hm)
        · exact Or.inl (by rw [← Option.some_inj.mp hm]; exact List.mem_cons_self _ _)
      · intro k2 hk2
        rcases List.mem_cons.mp hk2 with rfl | hk2
        · exact h3 k2 rfl
        · exact h2 k2 hk2
      · intro b hb
        simp at hb
    | some b =>
      by_cases hlt : l.count b < l.count k
      · have hstep : (match (some b : Option α) with
          | none => some k
          | some b2 => if l.count b2 < l.count k then some k else some b2) =
            some k := by
          simp [hlt]
        rw [hstep] at h
        obtain ⟨h1, h2, h3⟩ := ih (some k) m h
        have hkm : l.count k ≤ l.count m := h3 k rfl
        refine ⟨?_, ?_, ?_⟩
        · rcases h1 with hm | hm
          · exact Or.inl (List.mem_cons_of_mem _ hm)
          · exact Or.inl (by rw [← Option.some_inj.mp hm]; exact List.mem_cons_self _ _)
        · intro k2 hk2
          rcases List.mem_cons.mp hk2 with rfl | hk2
          · exact hkm
          · exact h2 k2 hk2
        · intro b2 hb2
          exact (Option.some_inj.mp hb2) ▸ le_trans (le_of_lt hlt) hkm
      · have hstep : (match (some b : Option α) with
          | none => some k
          | some b2 => if l.count b2 < l.count k then some k else some b2) =
            some b := by
          simp [hlt]
        rw [hstep] at h
        obtain ⟨h1, h2, h3⟩ := ih (some b) m h
        have hbm : l.count b ≤ l.count m := h3 b rfl
        have hkb : l.count k ≤ l.count b := Nat.le_of_not_lt hlt
        refine ⟨?_, ?_, ?_⟩
        · rcases h1 with hm | hm
          · exact Or.inl (List.mem_cons_of_mem _ hm)
          · exact Or.inr hm
        · intro k2 hk2
          rcases List.mem_cons.mp hk2 with rfl | hk2
          · exact le_trans hkb hbm
          · exact h2 k2 hk2
        · intro b2 hb2
          exact (Option.some_inj.mp hb2) ▸ hbm

lemma counter_most_common_spec {α : Type} [DecidableEq α] (l : List α)
    (m : α) (h : counter_most_common l = some m) :
    m ∈ l ∧ ∀ x ∈ l, l.count x ≤ l.count m := by
  obtain ⟨h1, h2, _⟩ := pickMostCommon_spec l (counterKeys l) none m h
  constructor
  · rcases h1 with hm | hm
    · exact (mem_counterKeys l m).mp hm
    · simp at hm
  · intro x hx
    exact h2 x ((mem_counterKeys l x).mpr hx)

lemma pick_foldl_some {α : Type} [DecidableEq α] (l : List α) :
    ∀ (ks : List α) (b : α),
      ∃ m, ks.foldl
        (fun best k =>
          match best with
          | none => some k
          | some b2 => if l.count b2 < l.count k then some k else some b2)
        (some b) = some m := by
  intro ks
  induction ks with
  | nil => intro b; exact ⟨b, rfl⟩
  | cons k ks ih =>
    intro b
    rw [List.foldl_cons]
    by_cases hlt : l.count b < l.count k
    · have hstep : (match (some b : Option α) with
        | none => some k
        | some b2 => if l.count b2 < l.count k then some k else some b2) = some k := by
        simp [hlt]
      rw [hstep]
      exact ih k
    · have hstep : (match (some b : Option α) with
        | none => some k
        | some b2 => if l.count b2 < l.count k then some k else some b2) = some b := by
        simp [hlt]
      rw [hstep]
      exact ih b

lemma counter_most_common_isSome {α : Type} [DecidableEq α] (l : List α)
    (h : l ≠ []) : ∃ m, counter_most_common l = some m := by
  cases hks : counterKeys l with
  | nil =>
    cases l with
    | nil => exact absurd rfl h
    | cons a t =>
      have hmem : a ∈ counterKeys (a :: t) :=
        (mem_counterKeys _ _).mpr (List.mem_cons_self _ _)
      rw [hks] at hmem
      simp at hmem
  | cons k ks =>
    rw [counter_most_common, pickMostCommon, hks, List.foldl_cons]
    exact pick_foldl_some l ks k

/-- The multiplicity of a value in a list, under the equality test the
embedded `Counter` uses. -/
def countOcc {α : Type} [DecidableEq α] (l : List α) (x : α) : Nat :=
  l.count x

/-- C3 (amended): the consensus of `precision_recognition` over the
collected per-segment candidates is an exact-match majority vote: whenever
at least one candidate exists the result is a collected candidate of
maximal multiplicity (`Counter(candidates).most_common(1)`); no pairwise
fuzzy similarity, no 80/100 threshold and no PLATINUM/GOLD/CONFLICT
verdict taxonomy is computed anywhere. -/
theorem consensus_majority_vote (cands : List (String × String))
    (h : cands ≠ []) :
    ∃ m, precision_consensus cands = some m ∧ m ∈ cands ∧
      ∀ x ∈ cands, countOcc cands x ≤ countOcc cands m := by
  obtain ⟨m, hm⟩ := counter_most_common_isSome cands h
  obtain ⟨hmem, hmax⟩ := counter_most_common_spec cands m hm
  refine ⟨m, ?_, hmem, hmax⟩
  rw [precision_consensus, if_neg (by simpa [List.isEmpty_iff] using h)]
  exact hm

/-- Candidate list used to witness `consensus_majority_vote`. -/
def demoCandidates : List (String × String) :=
  [("Song X", "Artist A"), ("Song X", "Artist A"), ("Other", "Artist B")]

/-- Witness for `consensus_majority_vote` at a concrete candidate list. -/
theorem consensus_majority_vote_witness :
    ∃ m, precision_consensus demoCandidates = some m ∧ m ∈ demoCandidates ∧
      ∀ x ∈ demoCandidates,
        countOcc demoCandidates x ≤ countOcc demoCandidates m :=
  consensus_majority_vote demoCandidates (by decide)

/-- Verdict levels that the specification names for the three-signal case. -/
inductive Verdict
  | platinum
  | gold
  | conflict
  deriving DecidableEq

/-- Splitter for whitespace-separated words over a character list. -/
def splitWordsAux : List Char → List Char → List (List Char)
  | [], acc => if acc = [] then [] else [acc.reverse]
  | c :: rest, acc =>
    if c.isWhitespace then
      if acc = [] then splitWordsAux rest []
      else acc.reverse :: splitWordsAux rest []
    else splitWordsAux rest (c :: acc)

/-- The whitespace-separated words of a character list. -/
def splitWords (l : List Char) : List (List Char) := splitWordsAux l []

/-- Follows the words of the specification, for comparison with the source:
the case-insensitive token set of a label (lower-cased, split on
whitespace, duplicates removed). -/
def lowerTokens (s : String) : List (List Char) :=
  counterKeys (splitWords (s.data.map Char.toLower))

/-- Follows the words of the specification, for comparison with the source:
token-set fuzzy similarity on a 0-100 scale — full marks when one token
set contains the other (word order and partial subset containment are
tolerated), otherwise a Dice-style token-overlap ratio. -/
def tokenSetScore (a b : String) : Nat :=
  let ta := lowerTokens a
  let tb := lowerTokens b
  if ta.all (fun t => decide (t ∈ tb)) || tb.all (fun t => decide (t ∈ ta)) then
    100
  else
    200 * (ta.filter (fun t => decide (t ∈ tb))).length / (ta.length + tb.length)

/-- Follows the words of the specification, for comparison with the source:
the three-signal verdict — all pairs above the 80 threshold is PLATINUM,
no pair above it is CONFLICT, anything in between is GOLD/UNCERTAIN. -/
def specVerdict3 (a b c : String) : Verdict :=
  let n := (if tokenSetScore a b > 80 then 1 else 0) +
    (if tokenSetScore a c > 80 then 1 else 0) +
    (if tokenSetScore b c > 80 then 1 else 0)
  if n = 3 then Verdict.platinum
  else if n = 0 then Verdict.conflict
  else Verdict.gold

/-- The composite label `title - artist` of a candidate signal. -/
def segLabel (c : String × String) : String := c.1 ++ " - " ++ c.2

/-- C3 counterexample: on three signals of which exactly one pair exceeds
the 80/100 case-insensitive token-set similarity threshold — where the
claim demands a GOLD/UNCERTAIN verdict carried by the agreeing pair — the
code's consensus (`Counter.most_common` over exact tuples) returns the
earliest non-agreeing candidate instead: it compares candidates by exact
equality only and computes no verdict at all. -/
theorem consensus_counterexample :
    precision_consensus
      [("Zebra", "Zed"), ("Song X", "Artist A"), ("song x", "artist a")] =
      some ("Zebra", "Zed") ∧
    specVerdict3 (segLabel ("Zebra", "Zed")) (segLabel ("Song X", "Artist A"))
      (segLabel ("song x", "artist a")) = Verdict.gold ∧
    tokenSetScore (segLabel ("Song X", "Artist A"))
      (segLabel ("song x", "artist a")) > 80 ∧
    tokenSetScore (segLabel ("Zebra", "Zed"))
      (segLabel ("Song X", "Artist A")) ≤ 80 ∧
    tokenSetScore (segLabel ("Zebra", "Zed"))
      (segLabel ("song x", "artist a")) ≤ 80 ∧
    ("Zebra", "Zed") ≠ ("Song X", "Artist A") ∧
    ("Zebra", "Zed") ≠ ("song x", "artist a") := by
  decide

/-! ## Fallback labelling

When fingerprint recognition yields nothing, `MinerApp.process_single`
(miner_app.py 764-783) falls back to the platform metadata title: hashtags
and mentions are stripped, whitespace is collapsed, an empty result is
replaced by the constant `"Unknown Track"`, and the artist falls back to
`info.get('uploader', ...)` or `"Unknown Artist"`. -/

/-- Word characters of the regex `\w` (restricted to ASCII). -/
def isWordChar (c : Char) : Bool := c.isAlphanum || c = '_'

/-- Fuel-indexed scanner embedding `re.sub(r'#\w+', '', s)`-style removal:
a marker followed by at least one word character is deleted together with
the maximal word-character run after it.  The fuel — at least the length
of the list — only makes the recursion structural. -/
def stripTagsFuel (mark : Char) : Nat → List Char → List Char
  | 0, l => l
  | _ + 1, [] => []
  | fuel + 1, c :: rest =>
    if c == mark && (match rest with | r :: _ => isWordChar r | [] => false) then
      stripTagsFuel mark fuel (rest.dropWhile isWordChar)
    else
      c :: stripTagsFuel mark fuel rest

/-- Removal of `mark`-tags from a string. -/
def stripTags (mark : Char) (s : String) : String :=
  (stripTagsFuel mark s.data.length s.data).asString

/-- Single-space join of a word list. -/
def joinWords : List (List Char) → List Char
  | [] => []
  | [w] => w
  | w :: ws => w ++ ' ' :: joinWords ws

/-- Python `" ".join(s.split())`: collapse whitespace runs and trim. -/
def collapseWs (s : String) : String :=
  (joinWords (splitWords s.data)).asString

/-- The metadata-title cleaning of the fallback path: strip hashtags,
strip mentions, collapse whitespace (miner_app.py 770-774). -/
def clean_metadata_title (s : String) : String :=
  collapseWs (stripTags '@' (stripTags '#' s))

/-- Embeds the fallback identity of `process_single`: the cleaned title,
or the constant `"Unknown Track"` when it is empty, paired with the
uploader or the constant `"Unknown Artist"` (miner_app.py 779-780). -/
def process_single_fallback (originalTitle : String)
    (uploader : Option String) : String × String :=
  let ct := clean_metadata_title originalTitle
  (if ct = "" then "Unknown Track" else ct, uploader.getD "Unknown Artist")

/-- The displayed identity `f"{title} - {artist}"` (miner_app.py 783). -/
def identifiedLabel (ta : String × String) : String :=
  ta.1 ++ " - " ++ ta.2

/-- C7 counterexample: two different zero-signal items (recognition failed,
metadata title cleans to empty) both receive the one fixed label
`Unknown Track - Unknown Artist`: the placeholder incorporates no
timestamp, is identical across repeated runs, and therefore cannot
guarantee output-folder uniqueness. -/
theorem placeholder_not_unique_counterexample :
    identifiedLabel (process_single_fallback "#tiktok @user" none) =
      "Unknown Track - Unknown Artist" ∧
    identifiedLabel (process_single_fallback "" none) =
      identifiedLabel (process_single_fallback "#tiktok @user" none) := by
  decide

/-- C7 (amended): the fallback identity is never empty — the label is the
cleaned metadata title or the constant `"Unknown Track"`, joined by
`" - "` with the uploader or the constant `"Unknown Artist"` — but it is a
pure function of title and uploader with no timestamp component: whenever
the cleaned title is empty the identity is the fixed pair
`("Unknown Track", uploader-or-default)`, identical across runs. -/
theorem fallback_label_nonempty (t : String) (u : Option String) :
    identifiedLabel (process_single_fallback t u) ≠ "" ∧
    (process_single_fallback t u).2 = u.getD "Unknown Artist" ∧
    (clean_metadata_title t = "" →
      process_single_fallback t u =
        ("Unknown Track", u.getD "Unknown Artist")) := by
  refine ⟨?_, rfl, ?_⟩
  · intro hempty
    have hlen := congrArg String.length hempty
    rw [identifiedLabel, String.length_append, String.length_append] at hlen
    have h3 : (" - " : String).length = 3 := rfl
    have h0 : ("" : String).length = 0 := rfl
    omega
  · intro hct
    simp [process_single_fallback, hct]

/-- Witness for `fallback_label_nonempty` at a title that cleans to
empty. -/
theorem fallback_label_nonempty_witness :
    identifiedLabel (process_single_fallback "#only @tags" none) ≠ "" ∧
    process_single_fallback "#only @tags" none =
      ("Unknown Track", "Unknown Artist") :=
  ⟨(fallback_label_nonempty "#only @tags" none).1,
    (fallback_label_nonempty "#only @tags" none).2.2 (by decide)⟩

/-! ## Label normalisation before use

`MinerApp.download_final` (miner_app.py 906-911) passes the winning label
through `sanitize_filename` before using it as a filesystem name, and
`search_master` builds its catalog query directly from the raw identity
(miner_app.py 342). -/

/-- The query template `f"{title} {artist} official audio"`. -/
def buildSearchQuery (title artist : String) : String :=
  title ++ " " ++ artist ++ " official audio"

lemma mem_dropWhile_of_mem {α : Type} (p : α → Bool) (l : List α) (c : α)
    (hc : c ∈ l) (hp : ¬ p c = true) : c ∈ l.dropWhile p := by
  have hsplit : l.takeWhile p ++ l.dropWhile p = l :=
    List.takeWhile_append_dropWhile p l
  rw [← hsplit] at hc
  rcases List.mem_append.mp hc with h | h
  · exact absurd (List.mem_takeWhile_imp h) hp
  · exact h

lemma mem_pyStrip_of_not_ws (l : List Char) (c : Char) (hc : c ∈ l)
    (hw : ¬ c.isWhitespace = true) : c ∈ pyStrip l := by
  rw [pyStrip, List.mem_reverse]
  exact mem_dropWhile_of_mem _ _ _
    ((List.mem_reverse).mpr (mem_dropWhile_of_mem _ _ _ hc hw)) hw

lemma mem_of_mem_pyStrip (l : List Char) (c : Char) (hc : c ∈ pyStrip l) :
    c ∈ l := by
  rw [pyStrip, List.mem_reverse] at hc
  have h1 : c ∈ (l.dropWhile Char.isWhitespace).reverse :=
    (List.dropWhile_sublist _).subset hc
  rw [List.mem_reverse] at h1
  exact (List.dropWhile_sublist _).subset h1

/-- C8 counterexample: `sanitize_filename` leaves hashtags, mentions and
parenthetical annotations untouched (it removes only the nine illegal
filename characters and trims outer whitespace), and the catalog search
query is built from the raw label with no normalisation step at all. -/
theorem normalisation_counterexample :
    sanitize_filename "Song (Official Video) #hit @dj" =
      "Song (Official Video) #hit @dj" ∧
    buildSearchQuery "Song (Official Video) #hit" "DJ X" =
      "Song (Official Video) #hit DJ X official audio" := by
  decide

/-- C8 (amended): before filesystem use the label passes
`sanitize_filename`, which removes exactly the nine illegal-filename
characters and trims outer whitespace; every non-illegal, non-whitespace
character — hashtag marks, mention marks, brackets and parentheses
included — survives it (hashtag and mention stripping happens only in the
metadata-fallback labelling path), and the catalog search query embeds the
raw label verbatim with the fixed qualifier appended. -/
theorem sanitize_properties (s : String) :
    (∀ c ∈ (sanitize_filename s).data, c ∉ illegalFilenameChars) ∧
    (∀ c ∈ s.data, c ∉ illegalFilenameChars → ¬ c.isWhitespace = true →
      c ∈ (sanitize_filename s).data) ∧
    (∀ t a : String,
      buildSearchQuery t a = t ++ (" " ++ a ++ " official audio")) := by
  have hdata : (sanitize_filename s).data =
      pyStrip (s.data.filter (fun c => decide (c ∉ illegalFilenameChars))) :=
    rfl
  refine ⟨?_, ?_, ?_⟩
  · intro c hc
    rw [hdata] at hc
    have h1 := mem_of_mem_pyStrip _ _ hc
    have h2 := List.mem_filter.mp h1
    exact of_decide_eq_true h2.2
  · intro c hc hill hw
    rw [hdata]
    apply mem_pyStrip_of_not_ws _ _ _ hw
    exact List.mem_filter.mpr ⟨hc, decide_eq_true hill⟩
  · intro t a
    simp [buildSearchQuery, String.append_assoc]

/-- Witness for `sanitize_properties`: a parenthesis survives sanitisation
while an illegal character cannot appear in its output. -/
theorem sanitize_properties_witness :
    '(' ∈ (sanitize_filename "a(b").data ∧
    '?' ∉ (sanitize_filename "a?b").data :=
  ⟨(sanitize_properties "a(b").2.1 '(' (by decide) (by decide) (by decide),
    fun hmem => absurd ((sanitize_properties "a?b").1 '?' hmem) (by decide)⟩

/-! ## Batch orchestration

`MinerApp.process_batch` (miner_app.py 731-750) iterates the URLs, wraps
each `process_single` future in a `try/except` that logs the error and
continues, updates progress after every item, and logs a completion
message after the loop. -/

/-- Observable events of one batch run. -/
inductive BatchEvent
  | processing (idx total : Nat) (url : String)
  | itemError (url msg : String)
  | complete
  deriving DecidableEq

/-- Embeds `process_batch`: one `Processing (i+1/total)` event per URL in
order, an error event when the item run raises (the `except` logs and
continues), and a final completion event after the loop. -/
def process_batch (urls : List String)
    (runItem : String → Except String Unit) : List BatchEvent :=
  (urls.enum.flatMap fun p =>
    BatchEvent.processing (p.1 + 1) urls.length p.2 ::
      (match runItem p.2 with
       | Except.ok _ => []
       | Except.error e => [BatchEvent.itemError p.2 e])) ++
    [BatchEvent.complete]

/-- C6 (confirmed): every batch run emits a processing event for every URL
at its position, logs an error event for every item whose run raises and
advances past it, and always ends with the completion event — even when
every item fails; no single failure aborts the batch. -/
theorem batch_never_aborts (urls : List String)
    (runItem : String → Except String Unit) :
    (process_batch urls runItem).getLast? = some BatchEvent.complete ∧
    (∀ p ∈ urls.enum,
      BatchEvent.processing (p.1 + 1) urls.length p.2 ∈
        process_batch urls runItem) ∧
    (∀ p ∈ urls.enum, ∀ e, runItem p.2 = Except.error e →
      BatchEvent.itemError p.2 e ∈ process_batch urls runItem) := by
  refine ⟨?_, ?_, ?_⟩
  · rw [process_batch]
    exact List.getLast?_concat _
  · intro p hp
    rw [process_batch]
    exact List.mem_append.mpr
      (Or.inl (List.mem_flatMap.mpr ⟨p, hp, List.mem_cons_self _ _⟩))
  · intro p hp e he
    rw [process_batch]
    exact List.mem_append.mpr
      (Or.inl (List.mem_flatMap.mpr ⟨p, hp, by simp [he]⟩))

/-- Failing stub used to witness `batch_never_aborts`. -/
def alwaysFailRun : String → Except String Unit :=
  fun _ => Except.error "ProviderFailure"

/-- Witness for `batch_never_aborts`: a two-item batch whose items both
fail still logs both processing events, the error events and the final
completion event. -/
theorem batch_never_aborts_witness :
    (process_batch ["u1", "u2"] alwaysFailRun).getLast? =
      some BatchEvent.complete ∧
    BatchEvent.processing 1 2 "u1" ∈ process_batch ["u1", "u2"] alwaysFailRun ∧
    BatchEvent.itemError "u2" "ProviderFailure" ∈
      process_batch ["u1", "u2"] alwaysFailRun :=
  ⟨(batch_never_aborts ["u1", "u2"] alwaysFailRun).1,
    (batch_never_aborts ["u1", "u2"] alwaysFailRun).2.1 (0, "u1") (by decide),
    (batch_never_aborts ["u1", "u2"] alwaysFailRun).2.2 (1, "u2") (by decide)
      "ProviderFailure" rfl⟩
